import Mathlib

/-!
Shallow embedding of the state-transition-graph solver of the
`expertsystem` repository.  The repository snapshot under study ships only
documentation, notebooks and configuration; the Python implementation of
the solver itself is not present.  The definitions below are therefore
modelled from the specification document (and the notebook callers), as
indicated in each doc comment.
-/

namespace ExpertSystem

/-- Modelled from the spec: a Particle Record (§3): name, PID, mass and the
externally defined quantum-number set (charge, baryon number, the three
lepton numbers, C-parity, spin).  Spin is stored doubled so that
half-integer values stay exact; mass is stored as an exact integer in
units of 1e-7 GeV (the spec keeps exact arithmetic internally and allows
floats only at the boundary). -/
structure Particle where
  name : String
  pid : Int
  mass : Int
  charge : Int
  baryon : Int
  leptonE : Int
  leptonMu : Int
  leptonTau : Int
  parity : Option Int
  cParity : Option Int
  gParity : Option Int
  isospinDoubled : Option Nat
  spinDoubled : Nat
  deriving DecidableEq, Repr

/-- Modelled from the spec: the static particle table that the injected
`ParticleLookup` collaborator serves (§1, §6); only the particles used by
the documented scenarios are listed. -/
def particle_table : List Particle :=
  [ { name := "gamma", pid := 22, mass := 0, charge := 0, baryon := 0,
      leptonE := 0, leptonMu := 0, leptonTau := 0, parity := some (-1),
      cParity := some (-1), gParity := none, isospinDoubled := none,
      spinDoubled := 2 },
    { name := "pi0", pid := 111, mass := 1349766, charge := 0,
      baryon := 0, leptonE := 0, leptonMu := 0, leptonTau := 0,
      parity := some (-1), cParity := some 1, gParity := some (-1),
      isospinDoubled := some 2, spinDoubled := 0 },
    { name := "J/psi(1S)", pid := 443, mass := 30969000, charge := 0,
      baryon := 0, leptonE := 0, leptonMu := 0, leptonTau := 0,
      parity := some (-1), cParity := some (-1), gParity := some (-1),
      isospinDoubled := some 0, spinDoubled := 2 },
    { name := "f(0)(980)", pid := 9010221, mass := 9900000, charge := 0,
      baryon := 0, leptonE := 0, leptonMu := 0, leptonTau := 0,
      parity := some 1, cParity := some 1, gParity := some 1,
      isospinDoubled := some 0, spinDoubled := 0 },
    { name := "f(0)(1500)", pid := 9030221, mass := 15060000, charge := 0,
      baryon := 0, leptonE := 0, leptonMu := 0, leptonTau := 0,
      parity := some 1, cParity := some 1, gParity := some 1,
      isospinDoubled := some 0, spinDoubled := 0 } ]

/-- Modelled from the spec: the `ParticleLookup.find` capability keyed by
name (§6); absence is reported, never fabricated. -/
def find_particle (nm : String) : Option Particle :=
  particle_table.find? (fun p => p.name = nm)

/-- Modelled from the spec: a directed edge of a Topology (§3).  An edge
connects one producing node (`originating`, absent for the external
initial-state edge) to one consuming node (`ending`, absent for a
final-state edge). -/
structure Edge where
  originating : Option Nat
  ending : Option Nat
  deriving DecidableEq, Repr

/-- Modelled from the spec: a Topology (§3): a directed graph skeleton with
an ordered set of node IDs and an ordered, ID-keyed set of edges; no
particle content. -/
structure Topology where
  nodes : List Nat
  edges : List (Nat × Edge)
  deriving DecidableEq, Repr

/-- Edge IDs entering node `n`. -/
def incoming_edge_ids (t : Topology) (n : Nat) : List Nat :=
  (t.edges.filter (fun e => e.2.ending = some n)).map (fun e => e.1)

/-- Edge IDs leaving node `n`. -/
def outgoing_edge_ids (t : Topology) (n : Nat) : List Nat :=
  (t.edges.filter (fun e => e.2.originating = some n)).map (fun e => e.1)

/-- Edge IDs of the external initial-state edges (no producing node). -/
def initial_edge_ids (t : Topology) : List Nat :=
  (t.edges.filter (fun e => e.2.originating = none)).map (fun e => e.1)

/-- Edge IDs of the final-state edges (no consuming node). -/
def final_edge_ids (t : Topology) : List Nat :=
  (t.edges.filter (fun e => e.2.ending = none)).map (fun e => e.1)

/-- Edge IDs of the internal (intermediate-state) edges. -/
def internal_edge_ids (t : Topology) : List Nat :=
  (t.edges.filter
    (fun e => e.2.originating.isSome && e.2.ending.isSome)).map (fun e => e.1)

/-- Modelled from the spec: the three interaction types of the solver with
their notebook spelling (`InteractionTypes.Strong`, `.EM`, `.Weak`). -/
inductive InteractionTypes where
  | Strong
  | EM
  | Weak
  deriving DecidableEq, Repr

/-- Modelled from the spec: the numeric interaction strengths used for
grouping (strong 60, EM 1, weak 1e-4). -/
def interaction_strength : InteractionTypes → Rat
  | .Strong => 60
  | .EM => 1
  | .Weak => mkRat 1 10000

/-- Modelled from the spec: a State Transition Graph (§3): a topology plus
an assignment of Edge States (here: resolved particles, keyed by edge ID)
and Node Properties (here: the interaction type, keyed by node ID). -/
structure StateTransitionGraph where
  topology : Topology
  assignment : List (Nat × Particle)
  node_settings : List (Nat × InteractionTypes)
  node_ls : List (Nat × (Nat × Nat)) := []
  deriving DecidableEq, Repr

/-- The particle resolved on edge `eid`, when present. -/
def edge_particle (g : StateTransitionGraph) (eid : Nat) : Option Particle :=
  g.assignment.lookup eid

/-- Modelled from the spec: summing an additive quantum number over a list
of edges; a missing Edge State makes the whole sum unavailable (rules must
fail closed on it, §4.3). -/
def sum_qn (g : StateTransitionGraph) (f : Particle → Int) :
    List Nat → Option Int
  | [] => some 0
  | e :: rest =>
    match edge_particle g e, sum_qn g f rest with
    | some p, some s => some (f p + s)
    | _, _ => none

/-- Verdict of a conservation rule (§4.3). -/
inductive Verdict where
  | pass
  | fail
  deriving DecidableEq, Repr

/-- Modelled from the spec: additive conservation of a quantum number at a
node (sum over incoming edges equals sum over outgoing edges); missing
input data fails closed (§4.3). -/
def additive_conservation (f : Particle → Int) (g : StateTransitionGraph)
    (n : Nat) : Verdict :=
  match sum_qn g f (incoming_edge_ids g.topology n),
      sum_qn g f (outgoing_edge_ids g.topology n) with
  | some a, some b => if a = b then .pass else .fail
  | _, _ => .fail

/-- Modelled from the spec: the mass-threshold rule (parent mass must be at
least the sum of the daughter masses, §4.3); missing input data fails
closed. -/
def mass_threshold (g : StateTransitionGraph) (n : Nat) : Verdict :=
  match sum_qn g (fun p => p.mass) (incoming_edge_ids g.topology n),
      sum_qn g (fun p => p.mass) (outgoing_edge_ids g.topology n) with
  | some a, some b => if b ≤ a then .pass else .fail
  | _, _ => .fail

/-- Modelled from the spec: every adjacent Edge State a node rule needs is
resolved; this is the required-input check of the additive and the
mass-threshold rules. -/
def node_inputs_available (g : StateTransitionGraph) (n : Nat) : Bool :=
  (incoming_edge_ids g.topology n ++ outgoing_edge_ids g.topology n).all
    (fun e => (edge_particle g e).isSome)

/-- Modelled from the spec: multiplying an optional multiplicative quantum
number over a list of edges; an unresolved Edge State or a particle
lacking the value makes the product unavailable (rules fail closed on it,
§4.3). -/
def prod_qn (g : StateTransitionGraph) (f : Particle → Option Int) :
    List Nat → Option Int
  | [] => some 1
  | e :: rest =>
    match edge_particle g e, prod_qn g f rest with
    | some p, some s =>
      match f p with
      | some v => some (v * s)
      | none => none
    | _, _ => none

/-- Modelled from the spec: the (L, S) assignment of the Node Properties
(§3), both doubled. -/
def node_ls_of (g : StateTransitionGraph) (n : Nat) : Option (Nat × Nat) :=
  g.node_ls.lookup n

/-- The required inputs of the parity rule: the parity products of both
edge sides and the node's (L, S). -/
def parity_inputs (g : StateTransitionGraph) (n : Nat) :
    Option (Int × Int × (Nat × Nat)) :=
  match prod_qn g (fun p => p.parity) (incoming_edge_ids g.topology n),
      prod_qn g (fun p => p.parity) (outgoing_edge_ids g.topology n),
      node_ls_of g n with
  | some a, some b, some ls => some (a, b, ls)
  | _, _, _ => none

/-- Modelled from the spec: parity conservation with orbital angular
momentum (§4.3): the incoming parity equals the outgoing parity times
(-1)^L; any missing required datum fails closed. -/
def parity_conservation (g : StateTransitionGraph) (n : Nat) : Verdict :=
  match parity_inputs g n with
  | some (a, b, ls) =>
    if a = b * (if ls.1 % 4 = 0 then 1 else -1) then .pass else .fail
  | none => .fail

/-- The required inputs of the node C-parity rule: the C-parity products
of both edge sides. -/
def c_parity_inputs (g : StateTransitionGraph) (n : Nat) :
    Option (Int × Int) :=
  match prod_qn g (fun p => p.cParity) (incoming_edge_ids g.topology n),
      prod_qn g (fun p => p.cParity) (outgoing_edge_ids g.topology n) with
  | some a, some b => some (a, b)
  | _, _ => none

/-- Modelled from the spec: C-parity conservation at a node (§4.3):
multiplicative, failing closed on any missing C-parity value. -/
def c_parity_node_conservation (g : StateTransitionGraph) (n : Nat) :
    Verdict :=
  match c_parity_inputs g n with
  | some (a, b) => if a = b then .pass else .fail
  | none => .fail

/-- The required inputs of the node G-parity rule: the G-parity products
of both edge sides. -/
def g_parity_inputs (g : StateTransitionGraph) (n : Nat) :
    Option (Int × Int) :=
  match prod_qn g (fun p => p.gParity) (incoming_edge_ids g.topology n),
      prod_qn g (fun p => p.gParity) (outgoing_edge_ids g.topology n) with
  | some a, some b => some (a, b)
  | _, _ => none

/-- Modelled from the spec: G-parity conservation at a node (§4.3):
multiplicative, failing closed on any missing G-parity value. -/
def g_parity_node_conservation (g : StateTransitionGraph) (n : Nat) :
    Verdict :=
  match g_parity_inputs g n with
  | some (a, b) => if a = b then .pass else .fail
  | none => .fail

/-- Helper: the triangle condition on doubled angular momenta, including
the half-integer coupling parity. -/
def spin_triangle (a b c : Nat) : Bool :=
  decide (c ≤ a + b) && decide (a ≤ b + c) && decide (b ≤ a + c)
    && decide ((a + b + c) % 2 = 0)

/-- The required inputs of the two-body coupling rules (fixed arity,
§4.3): the resolved particle of the single incoming edge, the resolved
particles of the two outgoing edges, and the node's (L, S). -/
def two_body_inputs (g : StateTransitionGraph) (n : Nat) :
    Option (Particle × Particle × Particle × (Nat × Nat)) :=
  match incoming_edge_ids g.topology n, outgoing_edge_ids g.topology n with
  | [ein], [o1, o2] =>
    match edge_particle g ein, edge_particle g o1, edge_particle g o2,
        node_ls_of g n with
    | some pin, some p1, some p2, some ls => some (pin, p1, p2, ls)
    | _, _, _, _ => none
  | _, _ => none

/-- Modelled from the spec: the angular-momentum (spin) coupling rule
(§4.3): the outgoing spins must couple to the node's S and (L, S) must
couple to the incoming spin; any missing required datum fails closed. -/
def spin_conservation (g : StateTransitionGraph) (n : Nat) : Verdict :=
  match two_body_inputs g n with
  | some (pin, p1, p2, ls) =>
    if spin_triangle p1.spinDoubled p2.spinDoubled ls.2
        && spin_triangle ls.1 ls.2 pin.spinDoubled
    then .pass else .fail
  | none => .fail

/-- The required inputs of the isospin rule: the two-body tuple with the
three isospin magnitudes present. -/
def isospin_inputs (g : StateTransitionGraph) (n : Nat) :
    Option (Nat × Nat × Nat) :=
  match two_body_inputs g n with
  | some (pin, p1, p2, _) =>
    match pin.isospinDoubled, p1.isospinDoubled, p2.isospinDoubled with
    | some a, some b, some c => some (a, b, c)
    | _, _, _ => none
  | none => none

/-- Modelled from the spec: the isospin triangle rule (§4.3): the
outgoing isospins must couple to the incoming isospin; any missing
required datum fails closed. -/
def isospin_conservation (g : StateTransitionGraph) (n : Nat) : Verdict :=
  match isospin_inputs g n with
  | some (a, b, c) => if spin_triangle b c a then .pass else .fail
  | none => .fail

/-- The particles on all edges adjacent to a node, when all are
resolved. -/
def adjacent_particles (g : StateTransitionGraph) (n : Nat) :
    Option (List Particle) :=
  (incoming_edge_ids g.topology n ++ outgoing_edge_ids g.topology n).mapM
    (edge_particle g)

/-- The required inputs of the interaction-type compatibility rule: the
adjacent particles and the node's interaction type. -/
def compat_inputs (g : StateTransitionGraph) (n : Nat) :
    Option (List Particle × InteractionTypes) :=
  match adjacent_particles g n, g.node_settings.lookup n with
  | some ps, some it => some (ps, it)
  | _, _ => none

/-- Modelled from the spec: interaction-type compatibility (§4.3): a
photon at the node forces a rule family no stronger than EM, so the node
type must be EM or Weak; any missing required datum fails closed. -/
def interaction_type_compatibility (g : StateTransitionGraph) (n : Nat) :
    Verdict :=
  match compat_inputs g n with
  | some (ps, it) =>
    if ps.any (fun p => p.pid = 22) then
      (if it = .EM || it = .Weak then .pass else .fail)
    else .pass
  | none => .fail

/-- Modelled from the spec: the named node-level rule catalog of the
solver (§4.3): each entry carries the rule name, the verdict function and
the required-input check the rule fails closed on. -/
def node_rules : List (String × (StateTransitionGraph → Nat → Verdict)
    × (StateTransitionGraph → Nat → Bool)) :=
  [ ("charge_conservation", additive_conservation (fun p => p.charge),
      node_inputs_available),
    ("baryon_number_conservation", additive_conservation (fun p => p.baryon),
      node_inputs_available),
    ("electron_lepton_number_conservation",
      additive_conservation (fun p => p.leptonE), node_inputs_available),
    ("muon_lepton_number_conservation",
      additive_conservation (fun p => p.leptonMu), node_inputs_available),
    ("tau_lepton_number_conservation",
      additive_conservation (fun p => p.leptonTau), node_inputs_available),
    ("mass_threshold", mass_threshold, node_inputs_available),
    ("parity_conservation", parity_conservation,
      fun g n => (parity_inputs g n).isSome),
    ("c_parity_conservation", c_parity_node_conservation,
      fun g n => (c_parity_inputs g n).isSome),
    ("g_parity_conservation", g_parity_node_conservation,
      fun g n => (g_parity_inputs g n).isSome),
    ("spin_conservation", spin_conservation,
      fun g n => (two_body_inputs g n).isSome),
    ("isospin_conservation", isospin_conservation,
      fun g n => (isospin_inputs g n).isSome),
    ("interaction_type_compatibility", interaction_type_compatibility,
      fun g n => (compat_inputs g n).isSome) ]

/-- Modelled from the spec: the rule families active per interaction type
(§4.2, §4.3): the weak set is a subset of the EM set, which is a subset
of the strong set; G-parity and isospin hold only for strong nodes,
parity and C-parity not for weak nodes. -/
def rule_names_for : InteractionTypes → List String
  | .Strong =>
    ["charge_conservation", "baryon_number_conservation",
      "electron_lepton_number_conservation",
      "muon_lepton_number_conservation", "tau_lepton_number_conservation",
      "mass_threshold", "parity_conservation", "c_parity_conservation",
      "g_parity_conservation", "spin_conservation", "isospin_conservation",
      "interaction_type_compatibility"]
  | .EM =>
    ["charge_conservation", "baryon_number_conservation",
      "electron_lepton_number_conservation",
      "muon_lepton_number_conservation", "tau_lepton_number_conservation",
      "mass_threshold", "parity_conservation", "c_parity_conservation",
      "spin_conservation", "interaction_type_compatibility"]
  | .Weak =>
    ["charge_conservation", "baryon_number_conservation",
      "electron_lepton_number_conservation",
      "muon_lepton_number_conservation", "tau_lepton_number_conservation",
      "mass_threshold", "spin_conservation",
      "interaction_type_compatibility"]

/-- Modelled from the spec: the rule instances active at a node of the
given interaction type (§4.4 node-settings resolution). -/
def rules_for (it : InteractionTypes) :
    List (String × (StateTransitionGraph → Nat → Verdict)
      × (StateTransitionGraph → Nat → Bool)) :=
  node_rules.filter (fun r => decide (r.1 ∈ rule_names_for it))

/-- Modelled from the spec: a candidate graph survives when every rule
active for its node's interaction type passes at every node (§4.4); a
node without a resolved interaction type cannot be validated. -/
def graph_passes (g : StateTransitionGraph) : Bool :=
  g.topology.nodes.all (fun n =>
    match g.node_settings.lookup n with
    | some it => (rules_for it).all (fun r => decide (r.2.1 g n = .pass))
    | none => false)

/-- Modelled from the spec: a ProblemSet (§4.6): a topology, the seeded
external Edge States (InitialFacts), the candidate domain for intermediate
edges, and the per-node interaction settings. -/
structure ProblemSet where
  topology : Topology
  initial_facts : List (Nat × Particle)
  intermediate_domain : List Particle
  node_interactions : List (Nat × InteractionTypes)
  ls_domain : List (Nat × Nat) := [(0, 0), (0, 2), (2, 0), (2, 2)]
  deriving DecidableEq, Repr

/-- Modelled from the spec: enumeration of the Cartesian product of the
candidate domains of the unresolved edges (§4.4), in the deterministic
domain order. -/
def internal_assignments (dom : List Particle) :
    List Nat → List (List (Nat × Particle))
  | [] => [[]]
  | e :: rest =>
    dom.flatMap (fun p =>
      (internal_assignments dom rest).map (fun a => (e, p) :: a))

/-- Modelled from the spec: enumeration of the candidate (L, S)
assignments of the nodes from the node-settings domain (§4.4). -/
def ls_assignments (dom : List (Nat × Nat)) :
    List Nat → List (List (Nat × (Nat × Nat)))
  | [] => [[]]
  | n :: rest =>
    dom.flatMap (fun ls =>
      (ls_assignments dom rest).map (fun a => (n, ls) :: a))

/-- Modelled from the spec: the candidate State Transition Graphs of a
problem set, before rule filtering (§4.4): the Cartesian product of the
intermediate-edge particle candidates with the per-node (L, S)
candidates. -/
def candidate_graphs (ps : ProblemSet) : List StateTransitionGraph :=
  (internal_assignments ps.intermediate_domain
      (internal_edge_ids ps.topology)).flatMap
    (fun a => (ls_assignments ps.ls_domain ps.topology.nodes).map
      (fun lsa =>
        { topology := ps.topology, assignment := ps.initial_facts ++ a,
          node_settings := ps.node_interactions, node_ls := lsa }))

/-- Modelled from the spec: the Result object (§3, §6): the ordered list of
retained State Transition Graphs plus rule-violation diagnostics. -/
structure Result where
  transitions : List StateTransitionGraph
  diagnostics : List String
  deriving DecidableEq, Repr

/-- Modelled from the spec: `find_solutions` (§4.6): enumerate candidates,
prune by the rule catalog, deduplicate, and report as diagnostics the
names of the rules that eliminated candidates; zero solutions is a normal
outcome, never an exception (§7). -/
def find_solutions (ps : ProblemSet) : Result :=
  { transitions := ((candidate_graphs ps).filter graph_passes).dedup,
    diagnostics :=
      (node_rules.filter (fun r =>
        (candidate_graphs ps).any (fun g =>
          g.topology.nodes.any (fun n =>
            decide (r.2.1 g n = .fail))))).map (fun r => r.1) }

/-- Modelled from the spec: the State Transition Manager state (§4.6): the
user-level configuration that `set_allowed_interaction_types` and
`set_allowed_intermediate_particles` mutate. -/
structure StateTransitionManager where
  allowed_interaction_types : List InteractionTypes
  allowed_intermediate_particles : List String
  deriving DecidableEq, Repr

/-- Modelled from the spec: `find_solutions` as invoked on the manager: it
reads the manager state and returns the Result together with the (by §4.6
unchanged) manager state. -/
def find_solutions_stm (stm : StateTransitionManager) (ps : ProblemSet) :
    Result × StateTransitionManager :=
  (find_solutions ps, stm)

/-- Modelled from the spec: the total interaction strength of a graph: the
product of the numeric strengths of its nodes (§4.5). -/
def graph_strength (g : StateTransitionGraph) : Rat :=
  (g.node_settings.map (fun ns => interaction_strength ns.2)).prod

/-- Modelled from the spec: the Result Filter grouping (§4.5): retained
graphs are grouped by total interaction strength, the groups ordered by
decreasing strength so that the caller can inspect only the head
(dominant) group. -/
def group_by_strength (l : List StateTransitionGraph) :
    List (Rat × List StateTransitionGraph) :=
  (((l.map graph_strength).dedup).insertionSort (fun a b => b ≤ a)).map
    (fun k => (k, l.filter (fun g => graph_strength g = k)))

/-- Helper: shorthand for the gamma record of the table. -/
def gammaP : Particle :=
  { name := "gamma", pid := 22, mass := 0, charge := 0, baryon := 0,
    leptonE := 0, leptonMu := 0, leptonTau := 0, parity := some (-1),
    cParity := some (-1), gParity := none, isospinDoubled := none,
    spinDoubled := 2 }

/-- Helper: shorthand for the pi0 record of the table. -/
def pi0P : Particle :=
  { name := "pi0", pid := 111, mass := 1349766, charge := 0,
    baryon := 0, leptonE := 0, leptonMu := 0, leptonTau := 0,
    parity := some (-1), cParity := some 1, gParity := some (-1),
    isospinDoubled := some 2, spinDoubled := 0 }

/-- Helper: shorthand for the J/psi record of the table. -/
def jpsiP : Particle :=
  { name := "J/psi(1S)", pid := 443, mass := 30969000, charge := 0,
    baryon := 0, leptonE := 0, leptonMu := 0, leptonTau := 0,
    parity := some (-1), cParity := some (-1), gParity := some (-1),
    isospinDoubled := some 0, spinDoubled := 2 }

/-- Helper: shorthand for the f(0)(980) record of the table. -/
def f980P : Particle :=
  { name := "f(0)(980)", pid := 9010221, mass := 9900000, charge := 0,
    baryon := 0, leptonE := 0, leptonMu := 0, leptonTau := 0,
    parity := some 1, cParity := some 1, gParity := some 1,
    isospinDoubled := some 0, spinDoubled := 0 }

/-- The two-node isobar topology of a 1-to-3 decay: edge 0 is the initial
edge into node 0, node 0 emits final edge 2 and internal edge 3 into node
1, and node 1 emits final edges 4 and 5. -/
def isobar3_topology : Topology :=
  { nodes := [0, 1],
    edges :=
      [ (0, { originating := none, ending := some 0 }),
        (2, { originating := some 0, ending := none }),
        (3, { originating := some 0, ending := some 1 }),
        (4, { originating := some 1, ending := none }),
        (5, { originating := some 1, ending := none }) ] }

/-- A concrete problem set for `J/psi(1S) → gamma pi0 pi0` on the isobar
topology, with `f(0)(980)` as the only intermediate candidate. -/
def jpsi_problem_set : ProblemSet :=
  { topology := isobar3_topology,
    initial_facts := [(0, jpsiP), (2, gammaP), (4, pi0P), (5, pi0P)],
    intermediate_domain := [f980P],
    node_interactions := [(0, .EM), (1, .Strong)] }

/-- The single State Transition Graph retained for `jpsi_problem_set`. -/
def jpsi_solution : StateTransitionGraph :=
  { topology := isobar3_topology,
    assignment := [(0, jpsiP), (2, gammaP), (4, pi0P), (5, pi0P), (3, f980P)],
    node_settings := [(0, .EM), (1, .Strong)],
    node_ls := [(0, (0, 2)), (1, (0, 0))] }

/-- Helper: a graph retained in the Result passed the boolean rule
filter. -/
theorem mem_transitions_passes {ps : ProblemSet} {g : StateTransitionGraph}
    (hg : g ∈ (find_solutions ps).transitions) : graph_passes g = true := by
  have h1 : g ∈ ((candidate_graphs ps).filter graph_passes).dedup := hg
  have h2 := List.mem_dedup.mp h1
  exact (List.mem_filter.mp h2).2

/-- Helper: a graph accepted by the boolean filter passes, at every node,
every catalog rule that is active for all interaction types. -/
theorem graph_passes_rule {g : StateTransitionGraph} {n : Nat}
    (hp : graph_passes g = true) (hn : n ∈ g.topology.nodes)
    (r : String × (StateTransitionGraph → Nat → Verdict)
      × (StateTransitionGraph → Nat → Bool))
    (hr : ∀ it : InteractionTypes, r ∈ rules_for it) :
    r.2.1 g n = .pass := by
  have h1 := List.all_eq_true.mp hp n hn
  cases hlk : g.node_settings.lookup n with
  | none =>
    rw [hlk] at h1
    simp at h1
  | some it =>
    rw [hlk] at h1
    have h2 : (rules_for it).all
        (fun r => decide (r.2.1 g n = .pass)) = true := h1
    exact of_decide_eq_true (List.all_eq_true.mp h2 r (hr it))

/-- Helper: membership of a rule in the active set of every interaction
type, from its catalog membership and its name being always active. -/
theorem common_rule_mem (nm : String)
    (rule : StateTransitionGraph → Nat → Verdict)
    (avail : StateTransitionGraph → Nat → Bool)
    (hmem : (nm, rule, avail) ∈ node_rules)
    (hnm : ∀ it : InteractionTypes, nm ∈ rule_names_for it) :
    ∀ it : InteractionTypes, (nm, rule, avail) ∈ rules_for it :=
  fun it => List.mem_filter.mpr ⟨hmem, decide_eq_true (hnm it)⟩

/-- Helper: a passing additive-conservation verdict forces defined and
equal quantum-number sums. -/
theorem additive_conservation_pass {f : Particle → Int}
    {g : StateTransitionGraph} {n : Nat}
    (h : additive_conservation f g n = .pass) :
    sum_qn g f (incoming_edge_ids g.topology n)
      = sum_qn g f (outgoing_edge_ids g.topology n) := by
  unfold additive_conservation at h
  cases h1 : sum_qn g f (incoming_edge_ids g.topology n) with
  | none =>
    cases h2 : sum_qn g f (outgoing_edge_ids g.topology n) with
    | none => rfl
    | some b => rw [h1, h2] at h; exact Verdict.noConfusion h
  | some a =>
    cases h2 : sum_qn g f (outgoing_edge_ids g.topology n) with
    | none => rw [h1, h2] at h; exact Verdict.noConfusion h
    | some b =>
      rw [h1, h2] at h
      by_cases hab : a = b
      · rw [hab]
      · simp [hab] at h

/-- C1: for every State Transition Graph contained in the Result returned
by `find_solutions` and for every node of that graph, the sum of each
additive quantum number (charge, baryon number, electron-, muon- and
tau-lepton number) over the incoming edges of the node equals the sum
over its outgoing edges. -/
theorem find_solutions_conserves_additive_quantum_numbers
    (ps : ProblemSet) (g : StateTransitionGraph)
    (hg : g ∈ (find_solutions ps).transitions)
    (n : Nat) (hn : n ∈ g.topology.nodes) :
    sum_qn g (fun p => p.charge) (incoming_edge_ids g.topology n)
      = sum_qn g (fun p => p.charge) (outgoing_edge_ids g.topology n)
    ∧ sum_qn g (fun p => p.baryon) (incoming_edge_ids g.topology n)
      = sum_qn g (fun p => p.baryon) (outgoing_edge_ids g.topology n)
    ∧ sum_qn g (fun p => p.leptonE) (incoming_edge_ids g.topology n)
      = sum_qn g (fun p => p.leptonE) (outgoing_edge_ids g.topology n)
    ∧ sum_qn g (fun p => p.leptonMu) (incoming_edge_ids g.topology n)
      = sum_qn g (fun p => p.leptonMu) (outgoing_edge_ids g.topology n)
    ∧ sum_qn g (fun p => p.leptonTau) (incoming_edge_ids g.topology n)
      = sum_qn g (fun p => p.leptonTau) (outgoing_edge_ids g.topology n) := by
  have hp := mem_transitions_passes hg
  exact
    ⟨ additive_conservation_pass (graph_passes_rule hp hn
        ("charge_conservation", additive_conservation (fun p => p.charge),
          node_inputs_available)
        (common_rule_mem _ _ _ (by simp [node_rules])
          (fun it => by cases it <;> decide))),
      additive_conservation_pass (graph_passes_rule hp hn
        ("baryon_number_conservation",
          additive_conservation (fun p => p.baryon), node_inputs_available)
        (common_rule_mem _ _ _ (by simp [node_rules])
          (fun it => by cases it <;> decide))),
      additive_conservation_pass (graph_passes_rule hp hn
        ("electron_lepton_number_conservation",
          additive_conservation (fun p => p.leptonE), node_inputs_available)
        (common_rule_mem _ _ _ (by simp [node_rules])
          (fun it => by cases it <;> decide))),
      additive_conservation_pass (graph_passes_rule hp hn
        ("muon_lepton_number_conservation",
          additive_conservation (fun p => p.leptonMu), node_inputs_available)
        (common_rule_mem _ _ _ (by simp [node_rules])
          (fun it => by cases it <;> decide))),
      additive_conservation_pass (graph_passes_rule hp hn
        ("tau_lepton_number_conservation",
          additive_conservation (fun p => p.leptonTau), node_inputs_available)
        (common_rule_mem _ _ _ (by simp [node_rules])
          (fun it => by cases it <;> decide))) ⟩

/-- Witness for C1: the invariant instantiated at the concrete J/psi
problem set, its single retained graph and node 0. -/
theorem find_solutions_conserves_additive_quantum_numbers_witness :
    sum_qn jpsi_solution (fun p => p.charge)
        (incoming_edge_ids jpsi_solution.topology 0)
      = sum_qn jpsi_solution (fun p => p.charge)
        (outgoing_edge_ids jpsi_solution.topology 0) :=
  (find_solutions_conserves_additive_quantum_numbers jpsi_problem_set
    jpsi_solution (by decide) 0 (by decide)).1

/-- Helper: a passing mass-threshold verdict forces defined mass sums with
the outgoing sum bounded by the incoming sum. -/
theorem mass_threshold_pass {g : StateTransitionGraph} {n : Nat}
    (h : mass_threshold g n = .pass) :
    ∃ a b, sum_qn g (fun p => p.mass) (incoming_edge_ids g.topology n)
        = some a
      ∧ sum_qn g (fun p => p.mass) (outgoing_edge_ids g.topology n) = some b
      ∧ b ≤ a := by
  unfold mass_threshold at h
  cases h1 : sum_qn g (fun p => p.mass) (incoming_edge_ids g.topology n) with
  | none =>
    cases h2 : sum_qn g (fun p => p.mass)
        (outgoing_edge_ids g.topology n) with
    | none => rw [h1, h2] at h; exact Verdict.noConfusion h
    | some b => rw [h1, h2] at h; exact Verdict.noConfusion h
  | some a =>
    cases h2 : sum_qn g (fun p => p.mass)
        (outgoing_edge_ids g.topology n) with
    | none => rw [h1, h2] at h; exact Verdict.noConfusion h
    | some b =>
      rw [h1, h2] at h
      by_cases hab : b ≤ a
      · exact ⟨a, b, rfl, rfl, hab⟩
      · simp [hab] at h

/-- C6: for every State Transition Graph in a returned Result and every
node of that graph, the sum of the outgoing-edge particle masses is at
most the incoming-edge mass sum.  The root node has the external
initial-state edge as its only incoming edge, so there the bound is
against the declared initial-state mass seeded by the problem set. -/
theorem find_solutions_respects_mass_threshold
    (ps : ProblemSet) (g : StateTransitionGraph)
    (hg : g ∈ (find_solutions ps).transitions)
    (n : Nat) (hn : n ∈ g.topology.nodes) :
    ∃ a b, sum_qn g (fun p => p.mass) (incoming_edge_ids g.topology n)
        = some a
      ∧ sum_qn g (fun p => p.mass) (outgoing_edge_ids g.topology n) = some b
      ∧ b ≤ a := by
  have hp := mem_transitions_passes hg
  exact mass_threshold_pass (graph_passes_rule hp hn
    ("mass_threshold", mass_threshold, node_inputs_available)
    (common_rule_mem _ _ _ (by simp [node_rules])
      (fun it => by cases it <;> decide)))

/-- Witness for C6: the mass bound instantiated at the concrete J/psi
problem set, its single retained graph and node 1. -/
theorem find_solutions_respects_mass_threshold_witness :
    ∃ a b, sum_qn jpsi_solution (fun p => p.mass)
        (incoming_edge_ids jpsi_solution.topology 1) = some a
      ∧ sum_qn jpsi_solution (fun p => p.mass)
        (outgoing_edge_ids jpsi_solution.topology 1) = some b
      ∧ b ≤ a :=
  find_solutions_respects_mass_threshold jpsi_problem_set
    jpsi_solution (by decide) 1 (by decide)

/-- C5: calling `find_solutions` twice on the same problem set with no
intervening mutation yields identical Result objects (the same State
Transition Graphs in the same order), and the call leaves the manager
state exactly as it was (no state outside the return value is mutated in
the pure model). -/
theorem find_solutions_idempotent_and_pure
    (stm : StateTransitionManager) (ps : ProblemSet) :
    (find_solutions_stm stm ps).1
      = (find_solutions_stm (find_solutions_stm stm ps).2 ps).1
    ∧ (find_solutions_stm stm ps).1.transitions
      = (find_solutions_stm (find_solutions_stm stm ps).2 ps).1.transitions
    ∧ (find_solutions_stm stm ps).2 = stm
    ∧ (find_solutions_stm (find_solutions_stm stm ps).2 ps).2 = stm :=
  ⟨rfl, rfl, rfl, rfl⟩

/-- C7: the Result Filter groups retained graphs by total interaction
strength: each interaction type carries its numeric strength (strong 60,
EM 1, weak 1e-4), a graph's total strength is the product over its nodes,
every member of a group has exactly the strength of its group key, every
retained graph occurs in the group keyed by its own strength, and the
group keys are ordered by decreasing strength so the head group is the
dominant one. -/
theorem group_by_strength_spec (l : List StateTransitionGraph) :
    interaction_strength .Strong = 60
    ∧ interaction_strength .EM = 1
    ∧ interaction_strength .Weak = 1/10000
    ∧ (∀ g, graph_strength g
        = (g.node_settings.map (fun ns => interaction_strength ns.2)).prod)
    ∧ (∀ p ∈ group_by_strength l, ∀ g ∈ p.2, graph_strength g = p.1)
    ∧ (∀ g ∈ l, ∃ p ∈ group_by_strength l,
        p.1 = graph_strength g ∧ g ∈ p.2)
    ∧ ((group_by_strength l).map (fun p => p.1)).Sorted
        (fun a b => b ≤ a) := by
  refine ⟨rfl, rfl, ?_, fun g => rfl, ?_, ?_, ?_⟩
  · rw [interaction_strength, Rat.mkRat_eq_div]
    norm_num
  · intro p hp g hg
    obtain ⟨k, _, rfl⟩ := List.mem_map.mp hp
    exact of_decide_eq_true (List.mem_filter.mp hg).2
  · intro g hg
    refine ⟨(graph_strength g, l.filter
      (fun x => graph_strength x = graph_strength g)), ?_, rfl, ?_⟩
    · apply List.mem_map_of_mem
      rw [List.mem_insertionSort]
      exact List.mem_dedup.mpr (List.mem_map_of_mem _ hg)
    · exact List.mem_filter.mpr ⟨hg, by simp⟩
  · have hmm :
        ((group_by_strength l).map (fun p => p.1))
          = ((l.map graph_strength).dedup).insertionSort
              (fun a b => b ≤ a) := by
      unfold group_by_strength
      rw [List.map_map]
      exact List.map_id _
    rw [hmm]
    haveI : IsTotal Rat (fun a b => b ≤ a) := ⟨fun a b => le_total b a⟩
    haveI : IsTrans Rat (fun a b => b ≤ a) :=
      ⟨fun _ _ _ h1 h2 => le_trans h2 h1⟩
    exact List.sorted_insertionSort _ _

/-- Modelled from the spec: the multiplicative C-parity of a particle
list; unavailable as soon as one particle carries no C-parity (fail
closed, §4.3). -/
def c_parity_product : List Particle → Option Int
  | [] => some 1
  | p :: rest =>
    match p.cParity, c_parity_product rest with
    | some c, some s => some (c * s)
    | _, _ => none

/-- Modelled from the spec: the reaction-level rule catalog used by
`check_reaction_violations`: additive conservation between the initial
and the final state, plus C-parity conservation. -/
def reaction_rules : List (String × (Particle → List Particle → Bool)) :=
  [ ("charge_conservation",
      fun i fs => decide (i.charge = (fs.map (fun p => p.charge)).sum)),
    ("baryon_number_conservation",
      fun i fs => decide (i.baryon = (fs.map (fun p => p.baryon)).sum)),
    ("c_parity_conservation",
      fun i fs =>
        match i.cParity, c_parity_product fs with
        | some c, some s => decide (c = s)
        | _, _ => false) ]

/-- Modelled from the spec: the outcome of `check_reaction_violations`:
the solutions found (none when a rule is globally violated) together with
the violated-rule diagnostics; zero solutions is a normal outcome (§7). -/
structure ReactionCheckResult where
  solutions : List (Particle × List Particle)
  violations : List String
  deriving DecidableEq, Repr

/-- Modelled from the spec: `check_reaction_violations` (with every
interaction type allowed, so every catalog rule active): resolve the
particle names (a hard `UnknownParticleError` if one is unknown, §7),
evaluate the reaction-level rules, and return the violations as
diagnostics inside a normal result. -/
def check_reaction_violations (ini : String) (fs : List String) :
    Except String ReactionCheckResult :=
  match find_particle ini, fs.mapM find_particle with
  | some i, some ps =>
    let viol := (reaction_rules.filter (fun r => !(r.2 i ps))).map
      (fun r => r.1)
    .ok { solutions := if viol.isEmpty then [(i, ps)] else [],
          violations := viol }
  | _, _ => .error "UnknownParticleError"

/-- C2: for initial state pi0 and final state three gammas (all
interaction types allowed) the check returns normally as an `Except.ok`
rather than raising, with zero solutions and a diagnostic citing C-parity
conservation. -/
theorem check_reaction_pi0_three_gamma_zero_solutions :
    ∃ res, check_reaction_violations "pi0" ["gamma", "gamma", "gamma"]
        = Except.ok res
      ∧ res.solutions = []
      ∧ "c_parity_conservation" ∈ res.violations := by
  refine ⟨{ solutions := [],
            violations := ["c_parity_conservation"] }, ?_, rfl, ?_⟩
  · rfl
  · decide

/-- Helper: a quantum-number sum over a list containing an unresolved edge
is unavailable. -/
theorem sum_qn_eq_none {g : StateTransitionGraph} {f : Particle → Int}
    {e : Nat} : ∀ {ids : List Nat}, e ∈ ids →
    edge_particle g e = none → sum_qn g f ids = none := by
  intro ids
  induction ids with
  | nil => intro h _; exact absurd h (List.not_mem_nil e)
  | cons a rest ih =>
    intro hmem hnone
    rcases List.mem_cons.mp hmem with h | h
    · subst h
      cases h2 : sum_qn g f rest <;> simp [sum_qn, hnone, h2]
    · cases h1 : edge_particle g a <;>
        simp [sum_qn, h1, ih h hnone]

/-- Helper: additive conservation fails when an adjacent edge of the node
is unresolved. -/
theorem additive_conservation_fail_of_missing {f : Particle → Int}
    {g : StateTransitionGraph} {n e : Nat}
    (he : e ∈ incoming_edge_ids g.topology n
        ∨ e ∈ outgoing_edge_ids g.topology n)
    (hnone : edge_particle g e = none) :
    additive_conservation f g n = .fail := by
  unfold additive_conservation
  rcases he with h | h
  · rw [sum_qn_eq_none h hnone]
  · rw [sum_qn_eq_none h hnone]
    cases sum_qn g f (incoming_edge_ids g.topology n) <;> rfl

/-- Helper: the mass threshold fails when an adjacent edge of the node is
unresolved. -/
theorem mass_threshold_fail_of_missing {g : StateTransitionGraph} {n e : Nat}
    (he : e ∈ incoming_edge_ids g.topology n
        ∨ e ∈ outgoing_edge_ids g.topology n)
    (hnone : edge_particle g e = none) :
    mass_threshold g n = .fail := by
  unfold mass_threshold
  rcases he with h | h
  · rw [sum_qn_eq_none h hnone]
  · rw [sum_qn_eq_none h hnone]
    cases sum_qn g (fun p => p.mass) (incoming_edge_ids g.topology n) <;> rfl

/-- Helper: an additive rule fails when some adjacent Edge State is
unresolved. -/
theorem additive_fail_of_unavailable {f : Particle → Int}
    {g : StateTransitionGraph} {n : Nat}
    (h : node_inputs_available g n = false) :
    additive_conservation f g n = .fail := by
  unfold node_inputs_available at h
  obtain ⟨e, he, hfe⟩ := List.all_eq_false.mp h
  have hnone : edge_particle g e = none := by
    cases hc : edge_particle g e with
    | none => rfl
    | some p => rw [hc] at hfe; simp at hfe
  rcases List.mem_append.mp he with h1 | h1
  · exact additive_conservation_fail_of_missing (Or.inl h1) hnone
  · exact additive_conservation_fail_of_missing (Or.inr h1) hnone

/-- Helper: the mass threshold fails when some adjacent Edge State is
unresolved. -/
theorem mass_fail_of_unavailable {g : StateTransitionGraph} {n : Nat}
    (h : node_inputs_available g n = false) :
    mass_threshold g n = .fail := by
  unfold node_inputs_available at h
  obtain ⟨e, he, hfe⟩ := List.all_eq_false.mp h
  have hnone : edge_particle g e = none := by
    cases hc : edge_particle g e with
    | none => rfl
    | some p => rw [hc] at hfe; simp at hfe
  rcases List.mem_append.mp he with h1 | h1
  · exact mass_threshold_fail_of_missing (Or.inl h1) hnone
  · exact mass_threshold_fail_of_missing (Or.inr h1) hnone

/-- Helper: the parity rule fails when a required input is missing. -/
theorem parity_fail_of_unavailable {g : StateTransitionGraph} {n : Nat}
    (h : (parity_inputs g n).isSome = false) :
    parity_conservation g n = .fail := by
  unfold parity_conservation
  cases hc : parity_inputs g n with
  | none => rfl
  | some v => rw [hc] at h; simp at h

/-- Helper: the node C-parity rule fails when a required input is
missing. -/
theorem c_parity_fail_of_unavailable {g : StateTransitionGraph} {n : Nat}
    (h : (c_parity_inputs g n).isSome = false) :
    c_parity_node_conservation g n = .fail := by
  unfold c_parity_node_conservation
  cases hc : c_parity_inputs g n with
  | none => rfl
  | some v => rw [hc] at h; simp at h

/-- Helper: the node G-parity rule fails when a required input is
missing. -/
theorem g_parity_fail_of_unavailable {g : StateTransitionGraph} {n : Nat}
    (h : (g_parity_inputs g n).isSome = false) :
    g_parity_node_conservation g n = .fail := by
  unfold g_parity_node_conservation
  cases hc : g_parity_inputs g n with
  | none => rfl
  | some v => rw [hc] at h; simp at h

/-- Helper: the spin coupling rule fails when a required input is
missing. -/
theorem spin_fail_of_unavailable {g : StateTransitionGraph} {n : Nat}
    (h : (two_body_inputs g n).isSome = false) :
    spin_conservation g n = .fail := by
  unfold spin_conservation
  cases hc : two_body_inputs g n with
  | none => rfl
  | some v => rw [hc] at h; simp at h

/-- Helper: the isospin rule fails when a required input is missing. -/
theorem isospin_fail_of_unavailable {g : StateTransitionGraph} {n : Nat}
    (h : (isospin_inputs g n).isSome = false) :
    isospin_conservation g n = .fail := by
  unfold isospin_conservation
  cases hc : isospin_inputs g n with
  | none => rfl
  | some v => rw [hc] at h; simp at h

/-- Helper: the interaction-type compatibility rule fails when a required
input is missing. -/
theorem compat_fail_of_unavailable {g : StateTransitionGraph} {n : Nat}
    (h : (compat_inputs g n).isSome = false) :
    interaction_type_compatibility g n = .fail := by
  unfold interaction_type_compatibility
  cases hc : compat_inputs g n with
  | none => rfl
  | some v => rw [hc] at h; simp at h

/-- Modelled from the spec: rule evaluation with diagnostics (§7): the
rule verdict is computed totally (no exception can escape a total
function), and a missing required input of the rule is additionally
recorded as a diagnostic event. -/
def eval_rule_checked
    (r : String × (StateTransitionGraph → Nat → Verdict)
      × (StateTransitionGraph → Nat → Bool))
    (g : StateTransitionGraph) (n : Nat) : Verdict × List String :=
  (r.2.1 g n,
    if r.2.2 g n then []
    else [r.1 ++ ": missing required input data"])

/-- C4: for every conservation rule of the catalog — the additive laws,
the mass threshold, parity with L, C-parity, G-parity, spin coupling,
isospin and interaction-type compatibility — and every input on which a
required datum of that rule is missing (an unresolved Edge State, a
particle record lacking the quantum number the rule reads, or absent
node properties), checked evaluation returns failure (never pass)
together with a recorded diagnostic; evaluation is a total function, so
no exception escapes it. -/
theorem rule_evaluation_fails_closed
    (r : String × (StateTransitionGraph → Nat → Verdict)
      × (StateTransitionGraph → Nat → Bool))
    (hr : r ∈ node_rules) (g : StateTransitionGraph) (n : Nat)
    (hmiss : r.2.2 g n = false) :
    (eval_rule_checked r g n).1 = .fail
    ∧ (eval_rule_checked r g n).2 ≠ [] := by
  constructor
  · show r.2.1 g n = .fail
    simp only [node_rules, List.mem_cons, List.not_mem_nil, or_false] at hr
    rcases hr with rfl|rfl|rfl|rfl|rfl|rfl|rfl|rfl|rfl|rfl|rfl|rfl
    · exact additive_fail_of_unavailable hmiss
    · exact additive_fail_of_unavailable hmiss
    · exact additive_fail_of_unavailable hmiss
    · exact additive_fail_of_unavailable hmiss
    · exact additive_fail_of_unavailable hmiss
    · exact mass_fail_of_unavailable hmiss
    · exact parity_fail_of_unavailable hmiss
    · exact c_parity_fail_of_unavailable hmiss
    · exact g_parity_fail_of_unavailable hmiss
    · exact spin_fail_of_unavailable hmiss
    · exact isospin_fail_of_unavailable hmiss
    · exact compat_fail_of_unavailable hmiss
  · show (if r.2.2 g n then []
      else [r.1 ++ ": missing required input data"]) ≠ []
    rw [hmiss]
    simp

/-- A graph whose Edge States are all resolved but whose incoming J/psi
record carries no C-parity value. -/
def cparity_missing_graph : StateTransitionGraph :=
  { topology := isobar3_topology,
    assignment := [(0, { jpsiP with cParity := none }), (2, gammaP),
      (4, pi0P), (5, pi0P), (3, f980P)],
    node_settings := [(0, .EM), (1, .Strong)],
    node_ls := [(0, (0, 2)), (1, (0, 0))] }

/-- Witness for C4: the node C-parity rule, on a graph whose Edge States
are all resolved but whose particle record lacks the C-parity datum the
rule reads, fails closed with a recorded diagnostic. -/
theorem rule_evaluation_fails_closed_witness :
    (eval_rule_checked ("c_parity_conservation",
        c_parity_node_conservation,
        fun g n => (c_parity_inputs g n).isSome)
      cparity_missing_graph 0).1 = .fail
    ∧ (eval_rule_checked ("c_parity_conservation",
        c_parity_node_conservation,
        fun g n => (c_parity_inputs g n).isSome)
      cparity_missing_graph 0).2 ≠ [] :=
  rule_evaluation_fails_closed
    ("c_parity_conservation", c_parity_node_conservation,
      fun g n => (c_parity_inputs g n).isSome)
    (by simp [node_rules]) cparity_missing_graph 0 (by decide)

/-- Modelled from the spec: the interaction types a node can carry given
its adjacent particles (§4.3 and the reaction notebook): a photon at the
node forces the EM rule family, and the weak type can never be excluded
because its conservation-law set is a subset of the others; without a
photon all three types remain possible. -/
def required_interaction_types (adjacent : List Particle) :
    List InteractionTypes :=
  if adjacent.any (fun p => p.pid = 22) then [.EM, .Weak]
  else [.Strong, .EM, .Weak]

/-- Modelled from the spec: node-settings resolution of the interaction
types (§4.4 and `set_allowed_interaction_types` in the reaction
notebook): the user-allowed types are intersected with the types the node
requires; when the intersection is empty the manager emits a warning and
automatically corrects the node settings to the required types.
Resolution is total: it always returns settings and proceeds, never
raising and never dropping the node. -/
def resolve_node_interaction_types (allowed : List InteractionTypes)
    (adjacent : List Particle) : List InteractionTypes × List String :=
  if (allowed.filter
      (fun t => decide (t ∈ required_interaction_types adjacent))).isEmpty then
    (required_interaction_types adjacent,
      ["allowed interaction types do not match the required types of the node; using the required types"])
  else
    (allowed.filter
      (fun t => decide (t ∈ required_interaction_types adjacent)), [])

/-- Counterexample to C9 as stated: the allowed set Strong-and-Weak also
excludes EM, yet with a photon at the node resolution emits no warning
and the resolved settings do not include EM (the node may still be an
effective weak interaction). -/
theorem photon_node_strong_weak_no_warning :
    (resolve_node_interaction_types [.Strong, .Weak] [gammaP]).2 = []
    ∧ InteractionTypes.EM
      ∉ (resolve_node_interaction_types [.Strong, .Weak] [gammaP]).1 := by
  constructor
  · rfl
  · decide

/-- C9 (amended): if the user restricts the allowed interaction types to
a set that excludes both EM and Weak (e.g. Strong only) while a photon
occurs at an interaction node, resolution does not raise and does not
drop the node: it emits a warning and corrects the node settings to the
required types, which include the EM setting, and solving proceeds with
those corrected settings. -/
theorem photon_node_forces_em_with_warning
    (allowed : List InteractionTypes) (adjacent : List Particle)
    (hph : ∃ p ∈ adjacent, p.pid = 22)
    (hEM : InteractionTypes.EM ∉ allowed)
    (hWeak : InteractionTypes.Weak ∉ allowed) :
    (resolve_node_interaction_types allowed adjacent).2 ≠ []
    ∧ InteractionTypes.EM
      ∈ (resolve_node_interaction_types allowed adjacent).1
    ∧ (resolve_node_interaction_types allowed adjacent).1
      = required_interaction_types adjacent := by
  have hreq : required_interaction_types adjacent = [.EM, .Weak] := by
    unfold required_interaction_types
    rw [if_pos]
    rw [List.any_eq_true]
    obtain ⟨p, hp, hpid⟩ := hph
    exact ⟨p, hp, by rw [hpid]; rfl⟩
  have hfil : allowed.filter
      (fun t => decide (t ∈ required_interaction_types adjacent)) = [] := by
    rw [List.filter_eq_nil_iff]
    intro t ht
    cases t with
    | Strong => rw [hreq]; simp
    | EM => exact absurd ht hEM
    | Weak => exact absurd ht hWeak
  unfold resolve_node_interaction_types
  rw [hfil]
  simp [hreq]

/-- Witness for the amended C9: Strong-only settings at a photon node are
corrected to the EM-containing required types with a warning. -/
theorem photon_node_forces_em_with_warning_witness :
    (resolve_node_interaction_types [.Strong] [gammaP]).2 ≠ []
    ∧ InteractionTypes.EM
      ∈ (resolve_node_interaction_types [.Strong] [gammaP]).1
    ∧ (resolve_node_interaction_types [.Strong] [gammaP]).1
      = required_interaction_types [gammaP] :=
  photon_node_forces_em_with_warning [.Strong] [gammaP]
    ⟨gammaP, by decide, by decide⟩ (by decide) (by decide)

/-- Modelled from the spec: seeding of the InitialFacts (§4.4): the
final-state particles are distributed over the final-state edge IDs in
every order, and duplicate assignments, which arise exactly when
identical particles swap edge IDs, are removed. -/
def final_state_seeds (final_ids : List Nat) (particles : List Particle) :
    List (List (Nat × Particle)) :=
  (particles.permutations.map (fun perm => final_ids.zip perm)).dedup

/-- Modelled from the spec: the merged raw solution list over all seeded
InitialFacts of one topology (§4.4, §4.6), before the Equivalence
Filter. -/
def raw_solutions (t : Topology) (ini : List (Nat × Particle))
    (final_ids : List Nat) (particles : List Particle)
    (dom : List Particle) (ints : List (Nat × InteractionTypes)) :
    List StateTransitionGraph :=
  (final_state_seeds final_ids particles).flatMap (fun seed =>
    (find_solutions
      { topology := t, initial_facts := ini ++ seed,
        intermediate_domain := dom, node_interactions := ints }).transitions)

/-- Modelled from the spec: the Equivalence Filter (§4.5): duplicate
solution graphs are removed, keeping the first representative of each
duplicate class; graphs that differ in any resolved content are kept
apart. -/
def filtered_solutions (t : Topology) (ini : List (Nat × Particle))
    (final_ids : List Nat) (particles : List Particle)
    (dom : List Particle) (ints : List (Nat × InteractionTypes)) :
    List StateTransitionGraph :=
  (raw_solutions t ini final_ids particles dom ints).dedup

/-- C8: permuting which final-state edge ID labels which particle (in
particular swapping identical particles) leaves the number of retained
State Transition Graphs unchanged; the Equivalence Filter keeps a
representative of every solution that occurs, and two solutions whose
resolved edge assignments differ (identities differ) are never merged
into one. -/
theorem equivalence_filter_permutation_insensitive
    (t : Topology) (ini : List (Nat × Particle)) (final_ids : List Nat)
    (particles1 particles2 : List Particle) (dom : List Particle)
    (ints : List (Nat × InteractionTypes))
    (hperm : List.Perm particles1 particles2) :
    (filtered_solutions t ini final_ids particles1 dom ints).length
      = (filtered_solutions t ini final_ids particles2 dom ints).length
    ∧ (∀ g ∈ raw_solutions t ini final_ids particles1 dom ints,
        g ∈ filtered_solutions t ini final_ids particles1 dom ints)
    ∧ (∀ g1 g2, g1 ∈ raw_solutions t ini final_ids particles1 dom ints →
        g2 ∈ raw_solutions t ini final_ids particles1 dom ints →
        g1.assignment ≠ g2.assignment →
        g1 ∈ filtered_solutions t ini final_ids particles1 dom ints
        ∧ g2 ∈ filtered_solutions t ini final_ids particles1 dom ints) := by
  refine ⟨?_, ?_, ?_⟩
  · apply List.Perm.length_eq
    apply List.Perm.dedup
    apply List.Perm.flatMap_right
    apply List.Perm.dedup
    exact (hperm.permutations).map _
  · intro g hg
    exact List.mem_dedup.mpr hg
  · intro g1 g2 h1 h2 _
    exact ⟨List.mem_dedup.mpr h1, List.mem_dedup.mpr h2⟩

/-- Witness for C8: swapping which edge ID labels which of the two
identical pi0 particles of the J/psi scenario. -/
theorem equivalence_filter_permutation_insensitive_witness :
    (filtered_solutions isobar3_topology [(0, jpsiP)] [2, 4, 5]
        [gammaP, pi0P, pi0P] [f980P] [(0, .EM), (1, .Strong)]).length
      = (filtered_solutions isobar3_topology [(0, jpsiP)] [2, 4, 5]
        [pi0P, pi0P, gammaP] [f980P] [(0, .EM), (1, .Strong)]).length :=
  (equivalence_filter_permutation_insensitive isobar3_topology [(0, jpsiP)]
    [2, 4, 5] [gammaP, pi0P, pi0P] [pi0P, pi0P, gammaP] [f980P]
    [(0, .EM), (1, .Strong)] (by decide)).1

/-- Modelled from the spec: the admissible spin-projection combinations:
the Cartesian product of the per-edge projection domains, enumerated in
the deterministic domain order (§4.2, §4.4). -/
def spin_projection_combinations : List (List Int) → List (List Int)
  | [] => [[]]
  | d :: rest =>
    ((d.product (spin_projection_combinations rest)).map
      (fun pr => pr.1 :: pr.2))

/-- Modelled from the spec: a spin-resolved solution: a State Transition
Graph together with the chosen (doubled) spin projection per external
edge. -/
structure SpinSolution where
  graph : StateTransitionGraph
  projections : List (Nat × Int)
  deriving DecidableEq, Repr

/-- Modelled from the spec: the transitions of a Result keep one State
Transition Graph per admissible spin-projection combination: one solution
is built per combination and only exact duplicates are removed by the
deduplication step (§4.5 and the reaction notebook). -/
def spin_solutions (g : StateTransitionGraph) (edge_ids : List Nat)
    (doms : List (List Int)) : List SpinSolution :=
  ((spin_projection_combinations doms).map
    (fun c => { graph := g, projections := edge_ids.zip c })).dedup

/-- Helper: the number of spin-projection combinations is the product of
the domain sizes. -/
theorem spin_projection_combinations_length (doms : List (List Int)) :
    (spin_projection_combinations doms).length
      = (doms.map List.length).prod := by
  induction doms with
  | nil => rfl
  | cons d rest ih =>
    simp only [spin_projection_combinations, List.length_map,
      List.map_cons, List.prod_cons]
    calc (d.product (spin_projection_combinations rest)).length
        = d.length * (spin_projection_combinations rest).length :=
          List.length_product _ _
      _ = d.length * (List.map List.length rest).prod := by rw [ih]

/-- Helper: every spin-projection combination picks one value per
domain. -/
theorem spin_projection_combinations_length_mem :
    ∀ {doms : List (List Int)} {c : List Int},
      c ∈ spin_projection_combinations doms → c.length = doms.length := by
  intro doms
  induction doms with
  | nil =>
    intro c hc
    simp only [spin_projection_combinations, List.mem_singleton] at hc
    simp [hc]
  | cons d rest ih =>
    intro c hc
    simp only [spin_projection_combinations, List.mem_map] at hc
    obtain ⟨⟨v, c0⟩, hpr, rfl⟩ := hc
    have h2 : c0 ∈ spin_projection_combinations rest :=
      (List.mem_product.mp hpr).2
    simp [ih h2]

/-- Helper: pairwise-distinct domains give pairwise-distinct
combinations. -/
theorem spin_projection_combinations_nodup :
    ∀ {doms : List (List Int)}, (∀ d ∈ doms, d.Nodup) →
      (spin_projection_combinations doms).Nodup := by
  intro doms
  induction doms with
  | nil => intro _; simp [spin_projection_combinations]
  | cons d rest ih =>
    intro h
    have hd : d.Nodup := h d (List.mem_cons_self d rest)
    have hr := ih (fun x hx => h x (List.mem_cons_of_mem _ hx))
    refine List.Nodup.map_on ?_ (hd.product hr)
    intro x _ y _ hxy
    obtain ⟨h1, h2⟩ := List.cons.inj hxy
    exact Prod.ext h1 h2

/-- C10: the deduplication step never merges solutions that differ only
in spin projections: with pairwise-distinct values in each projection
domain and one domain per external edge, the retained solution list
contains exactly one State Transition Graph per admissible
spin-projection combination (its length is the product of the domain
sizes), and the solution of every combination is present. -/
theorem transitions_keep_all_spin_projection_combinations
    (g : StateTransitionGraph) (edge_ids : List Nat)
    (doms : List (List Int))
    (hlen : doms.length ≤ edge_ids.length)
    (hnodup : ∀ d ∈ doms, d.Nodup) :
    (spin_solutions g edge_ids doms).length = (doms.map List.length).prod
    ∧ ∀ c ∈ spin_projection_combinations doms,
      ({ graph := g, projections := edge_ids.zip c } : SpinSolution)
        ∈ spin_solutions g edge_ids doms := by
  have hnd : ((spin_projection_combinations doms).map
      (fun c =>
        ({ graph := g, projections := edge_ids.zip c } : SpinSolution))).Nodup := by
    refine List.Nodup.map_on ?_ (spin_projection_combinations_nodup hnodup)
    intro x hx y hy hxy
    have hx1 := spin_projection_combinations_length_mem hx
    have hy1 := spin_projection_combinations_length_mem hy
    have h2 : edge_ids.zip x = edge_ids.zip y :=
      congrArg SpinSolution.projections hxy
    have hxr : (edge_ids.zip x).map Prod.snd = x :=
      List.map_snd_zip _ _ (by omega)
    have hyr : (edge_ids.zip y).map Prod.snd = y :=
      List.map_snd_zip _ _ (by omega)
    rw [← hxr, ← hyr, h2]
  constructor
  · unfold spin_solutions
    rw [List.dedup_eq_self.mpr hnd, List.length_map,
      spin_projection_combinations_length]
  · intro c hc
    exact List.mem_dedup.mpr (List.mem_map_of_mem _ hc)

/-- Witness for C10: the documented J/psi example: J/psi and gamma with
two (doubled) projection values each and the two pi0 with a single one
give 2 * 2 * 1 * 1 = 4 retained solutions. -/
theorem transitions_keep_all_spin_projection_combinations_witness :
    (spin_solutions jpsi_solution [0, 2, 4, 5]
        [[-2, 2], [-2, 2], [0], [0]]).length
      = ([[-2, 2], [-2, 2], [0], [0]].map List.length).prod
    ∧ (([[-2, 2], [-2, 2], [0], [0]].map List.length).prod = 4) :=
  ⟨(transitions_keep_all_spin_projection_combinations jpsi_solution
      [0, 2, 4, 5] [[-2, 2], [-2, 2], [0], [0]]
      (by decide) (by decide)).1,
    by decide⟩

/-- Modelled from the spec: an isobar decay tree (§4.1): either a
final-state edge (a leaf labelled with its final-state edge ID) or a
two-body decay node with two subtrees. -/
inductive IsobarTree where
  | leaf (id : Nat)
  | node (l r : IsobarTree)
  deriving DecidableEq, Repr

/-- The final-state edge IDs of a tree, left to right. -/
def IsobarTree.leaves : IsobarTree → List Nat
  | .leaf i => [i]
  | .node l r => l.leaves ++ r.leaves

/-- The least final-state edge ID of a tree. -/
def IsobarTree.minLeaf : IsobarTree → Nat
  | .leaf i => i
  | .node l r => min l.minLeaf r.minLeaf

/-- A tree is canonical when at every node the child holding the least
final-state edge ID comes first; this fixes one representative per
isomorphism class that fixes the initial edge and the final-state edge
labels (§4.1, §9). -/
def IsobarTree.canonical : IsobarTree → Bool
  | .leaf _ => true
  | .node l r => l.canonical && r.canonical && decide (l.minLeaf < r.minLeaf)

/-- The proper sublists of a list. -/
def proper_sublists (l : List Nat) : List (List Nat) :=
  l.sublists.filter (fun s => decide (s ≠ l))

/-- Helper: membership in the proper sublists. -/
theorem mem_proper_sublists {ys l : List Nat} :
    ys ∈ proper_sublists l ↔ ys.Sublist l ∧ ys ≠ l := by
  unfold proper_sublists
  rw [List.mem_filter, List.mem_sublists]
  simp

/-- Helper: a proper sublist is strictly shorter. -/
theorem proper_sublists_length {ys l : List Nat}
    (h : ys ∈ proper_sublists l) : ys.length < l.length := by
  obtain ⟨hsub, hne⟩ := mem_proper_sublists.mp h
  rcases Nat.lt_or_ge ys.length l.length with h1 | h1
  · exact h1
  · exact absurd (hsub.eq_of_length (Nat.le_antisymm hsub.length_le h1)) hne

/-- Modelled from the spec: the Topology Builder recursion (§4.1): over a
strictly sorted list of final-state edge IDs, the distinct isobar trees
are obtained by splitting off, together with the least ID, every proper
subset of the remaining IDs into the first subtree and the complement
into the second; keeping the least ID in the first subtree enumerates
each unordered two-body split exactly once. -/
def isobar_trees : List Nat → List IsobarTree
  | [] => []
  | [x] => [.leaf x]
  | x :: rest =>
    (proper_sublists rest).attach.flatMap (fun ys =>
      ((isobar_trees (x :: ys.1)).product
        (isobar_trees (rest.filter (fun v => !(decide (v ∈ ys.1)))))).map
        (fun pr => .node pr.1 pr.2))
termination_by l => l.length
decreasing_by
  · simp only [List.length_cons]
    have := proper_sublists_length ys.2
    omega
  · simp only [List.length_cons]
    have := List.length_filter_le
      (fun v => !(decide (v ∈ ys.1))) rest
    omega

/-- Modelled from the spec: `create_isobar_topologies` (§4.1): N = 0 is a
hard `InvalidTopologyRequest` error; for N ≥ 1 the distinct isobar trees
over the final-state edge IDs 0..N-1 are produced (N = 1 giving the
single trivial one-node topology). -/
def create_isobar_topologies (n : Nat) :
    Except String (List IsobarTree) :=
  if n = 0 then .error "InvalidTopologyRequest"
  else .ok (isobar_trees (List.range n))

/-- Helper: a tree always has a final-state edge. -/
theorem IsobarTree.leaves_ne_nil (t : IsobarTree) : t.leaves ≠ [] := by
  induction t with
  | leaf i => simp [IsobarTree.leaves]
  | node l r ihl ihr =>
    simp only [IsobarTree.leaves, ne_eq, List.append_eq_nil]
    intro h
    exact ihl h.1

/-- Helper: the least final-state edge ID occurs among the leaves. -/
theorem IsobarTree.minLeaf_mem (t : IsobarTree) : t.minLeaf ∈ t.leaves := by
  induction t with
  | leaf i => simp [IsobarTree.minLeaf, IsobarTree.leaves]
  | node l r ihl ihr =>
    simp only [IsobarTree.minLeaf, IsobarTree.leaves, List.mem_append]
    rcases le_total l.minLeaf r.minLeaf with h | h
    · rw [min_eq_left h]; exact Or.inl ihl
    · rw [min_eq_right h]; exact Or.inr ihr

/-- Helper: the least final-state edge ID bounds every leaf. -/
theorem IsobarTree.minLeaf_le (t : IsobarTree) :
    ∀ v ∈ t.leaves, t.minLeaf ≤ v := by
  induction t with
  | leaf i =>
    intro v hv
    simp only [IsobarTree.leaves, List.mem_singleton] at hv
    simp [IsobarTree.minLeaf, hv]
  | node l r ihl ihr =>
    intro v hv
    simp only [IsobarTree.leaves, List.mem_append] at hv
    simp only [IsobarTree.minLeaf]
    rcases hv with h | h
    · exact le_trans (min_le_left _ _) (ihl v h)
    · exact le_trans (min_le_right _ _) (ihr v h)

/-- Helper: filtering a duplicate-free list down to the members of one of
its sublists recovers that sublist. -/
theorem filter_mem_of_sublist {ys l : List Nat} (hsub : ys.Sublist l) :
    l.Nodup → l.filter (fun v => decide (v ∈ ys)) = ys := by
  induction hsub with
  | slnil => intro _; rfl
  | @cons l₁ l₂ a h ih =>
    intro hnd
    have hna : a ∉ l₂ := (List.nodup_cons.mp hnd).1
    have hna1 : a ∉ l₁ := fun hmem => hna (h.subset hmem)
    rw [List.filter_cons_of_neg (by simpa using hna1)]
    exact ih (List.nodup_cons.mp hnd).2
  | @cons₂ l₁ l₂ a h ih =>
    intro hnd
    have hna : a ∉ l₂ := (List.nodup_cons.mp hnd).1
    rw [List.filter_cons_of_pos (by simp)]
    congr 1
    rw [List.filter_congr, ih (List.nodup_cons.mp hnd).2]
    intro v hv
    have hva : v ≠ a := fun hh => hna (hh ▸ hv)
    simp [List.mem_cons, hva]

/-- Helper: the unfolding of `isobar_trees` on a list of two or more
IDs. -/
theorem isobar_trees_cons {x : Nat} {rest : List Nat} (h : rest ≠ []) :
    isobar_trees (x :: rest) =
      (proper_sublists rest).attach.flatMap (fun ys =>
        ((isobar_trees (x :: ys.1)).product
          (isobar_trees (rest.filter (fun v => !(decide (v ∈ ys.1)))))).map
          (fun pr => .node pr.1 pr.2)) := by
  obtain ⟨y, rest', rfl⟩ := List.exists_cons_of_ne_nil h
  rw [isobar_trees]
  exact h

/-- Helper (soundness of the Topology Builder): over a strictly sorted ID
list, every produced tree is canonical and its leaves are exactly the
requested final-state edge IDs. -/
theorem isobar_trees_sound :
    ∀ s : List Nat, List.Sorted (· < ·) s →
    ∀ t ∈ isobar_trees s, t.canonical = true ∧ t.leaves.Perm s := by
  intro s
  induction s using isobar_trees.induct with
  | case1 =>
    intro _ t ht
    rw [isobar_trees] at ht
    exact absurd ht (List.not_mem_nil t)
  | case2 x =>
    intro _ t ht
    rw [isobar_trees, List.mem_singleton] at ht
    subst ht
    simp [IsobarTree.canonical, IsobarTree.leaves]
  | case3 x rest hne ih1 ih2 =>
    intro hsort t ht
    rw [isobar_trees_cons (fun hh => hne hh)] at ht
    obtain ⟨ys, _, ht2⟩ := List.mem_flatMap.mp ht
    obtain ⟨⟨l, r⟩, hpr, rfl⟩ := List.mem_map.mp ht2
    obtain ⟨hl, hr⟩ := List.mem_product.mp hpr
    obtain ⟨hx, hrest⟩ := List.sorted_cons.mp hsort
    obtain ⟨hsub, _⟩ := mem_proper_sublists.mp ys.2
    have hys_sorted : List.Sorted (· < ·) ys.1 := hrest.sublist hsub
    have hxys : ∀ v ∈ ys.1, x < v := fun v hv => hx v (hsub.subset hv)
    have hsort1 : List.Sorted (· < ·) (x :: ys.1) :=
      List.sorted_cons.mpr ⟨hxys, hys_sorted⟩
    have hsort2 : List.Sorted (· < ·)
        (rest.filter (fun v => !(decide (v ∈ ys.1)))) := hrest.filter _
    obtain ⟨hcanl, hperml⟩ := ih1 ys hsort1 l hl
    obtain ⟨hcanr, hpermr⟩ := ih2 ys hsort2 r hr
    have hperm2 : (ys.1 ++ rest.filter
        (fun v => !(decide (v ∈ ys.1)))).Perm rest := by
      have hfe : rest.filter (fun v => decide (v ∈ ys.1)) = ys.1 :=
        filter_mem_of_sublist hsub hrest.nodup
      have := List.filter_append_perm (fun v => decide (v ∈ ys.1)) rest
      rw [hfe] at this
      exact this
    have hperm : (IsobarTree.node l r).leaves.Perm (x :: rest) := by
      show (l.leaves ++ r.leaves).Perm (x :: rest)
      have step1 : (l.leaves ++ r.leaves).Perm
          ((x :: ys.1) ++ rest.filter (fun v => !(decide (v ∈ ys.1)))) :=
        hperml.append hpermr
      refine step1.trans ?_
      rw [List.cons_append]
      exact hperm2.cons x
    refine ⟨?_, hperm⟩
    have hminl : l.minLeaf = x := by
      have h1 : l.minLeaf ∈ x :: ys.1 := hperml.subset (l.minLeaf_mem)
      have h2 : l.minLeaf ≤ x :=
        l.minLeaf_le x (hperml.mem_iff.mpr (List.mem_cons_self x ys.1))
      rcases List.mem_cons.mp h1 with h3 | h3
      · exact h3
      · exact absurd h2 (Nat.not_le.mpr (hxys _ h3))
    have hminr : x < r.minLeaf := by
      have h1 : r.minLeaf ∈ rest.filter (fun v => !(decide (v ∈ ys.1))) :=
        hpermr.subset (r.minLeaf_mem)
      exact hx _ (List.mem_of_mem_filter h1)
    simp [IsobarTree.canonical, hcanl, hcanr, hminl, hminr]

/-- Helper (completeness of the Topology Builder): every canonical tree
whose leaves are exactly the requested (strictly sorted) final-state edge
IDs is produced. -/
theorem isobar_trees_complete :
    ∀ (t : IsobarTree) (s : List Nat), List.Sorted (· < ·) s →
    t.canonical = true → t.leaves.Perm s → t ∈ isobar_trees s := by
  intro t
  induction t with
  | leaf i =>
    intro s _ _ hperm
    have hs : s = [i] := by
      have h2 := hperm.symm
      simp only [IsobarTree.leaves] at h2
      rwa [List.perm_singleton] at h2
    subst hs
    rw [isobar_trees]
    exact List.mem_singleton.mpr rfl
  | node l r ihl ihr =>
    intro s hsort hcan hperm
    have hcan3 := hcan
    simp only [IsobarTree.canonical, Bool.and_eq_true,
      decide_eq_true_eq] at hcan3
    obtain ⟨⟨hcanl, hcanr⟩, hmin⟩ := hcan3
    have hperm2 : (l.leaves ++ r.leaves).Perm s := hperm
    cases s with
    | nil =>
      have h2 : l.leaves ++ r.leaves = [] := hperm2.eq_nil
      exact absurd (List.append_eq_nil.mp h2).1 l.leaves_ne_nil
    | cons x rest =>
      by_cases hrest_ne : rest = []
      · subst hrest_ne
        have hlen := hperm2.length_eq
        rw [List.length_append] at hlen
        have h1 : 0 < l.leaves.length :=
          List.length_pos.mpr l.leaves_ne_nil
        have h2 : 0 < r.leaves.length :=
          List.length_pos.mpr r.leaves_ne_nil
        simp at hlen
        omega
      · obtain ⟨hx, hrest⟩ := List.sorted_cons.mp hsort
        have hnodup_s : (x :: rest).Nodup := hsort.nodup
        have hnodup_lv : (l.leaves ++ r.leaves).Nodup :=
          (hperm2.nodup_iff).mpr hnodup_s
        obtain ⟨hndl, hndr, hdisj⟩ := List.nodup_append.mp hnodup_lv
        have hminT : (IsobarTree.node l r).minLeaf = l.minLeaf := by
          simp [IsobarTree.minLeaf, min_eq_left (le_of_lt hmin)]
        have hminl_eq : l.minLeaf = x := by
          have h1 : l.minLeaf ∈ x :: rest := by
            have h2 := (IsobarTree.node l r).minLeaf_mem
            rw [hminT] at h2
            exact hperm.subset h2
          have h2 : l.minLeaf ≤ x := by
            have hxlv : x ∈ (IsobarTree.node l r).leaves :=
              hperm.mem_iff.mpr (List.mem_cons_self x rest)
            have h3 := (IsobarTree.node l r).minLeaf_le x hxlv
            rw [hminT] at h3
            exact h3
          rcases List.mem_cons.mp h1 with h3 | h3
          · exact h3
          · exact absurd h2 (Nat.not_le.mpr (hx _ h3))
        have hxl : x ∈ l.leaves := hminl_eq ▸ l.minLeaf_mem
        have hxr : x ∉ r.leaves := fun hc => hdisj hxl hc
        have hmem_l : ∀ v, v ∈ l.leaves ↔
            v ∈ x :: rest.filter (fun v => decide (v ∈ l.leaves)) := by
          intro v
          constructor
          · intro hv
            have hvs : v ∈ x :: rest :=
              hperm.subset (List.mem_append_left _ hv)
            rcases List.mem_cons.mp hvs with h | h
            · exact h ▸ List.mem_cons_self _ _
            · exact List.mem_cons_of_mem _
                (List.mem_filter.mpr ⟨h, by simpa using hv⟩)
          · intro hv
            rcases List.mem_cons.mp hv with h | h
            · exact h ▸ hxl
            · simpa using (List.mem_filter.mp h).2
        have hmem_r : ∀ v, v ∈ r.leaves ↔
            v ∈ rest.filter (fun v =>
              !(decide (v ∈ rest.filter
                (fun w => decide (w ∈ l.leaves))))) := by
          intro v
          constructor
          · intro hv
            have hvx : v ≠ x := fun hc => hxr (hc ▸ hv)
            have hvs : v ∈ x :: rest :=
              hperm.subset (List.mem_append_right _ hv)
            have hvrest : v ∈ rest := (List.mem_cons.mp hvs).resolve_left hvx
            refine List.mem_filter.mpr ⟨hvrest, ?_⟩
            have hvnl : v ∉ l.leaves := fun hc => hdisj hc hv
            simp [List.mem_filter, hvnl]
          · intro hv
            obtain ⟨hvrest, hvny⟩ := List.mem_filter.mp hv
            have hvnl : v ∉ l.leaves := by
              intro hc
              have h5 : v ∈ rest.filter (fun w => decide (w ∈ l.leaves)) :=
                List.mem_filter.mpr ⟨hvrest, by simpa using hc⟩
              simp [h5] at hvny
            have hvt : v ∈ l.leaves ++ r.leaves :=
              hperm2.mem_iff.mpr (List.mem_cons_of_mem _ hvrest)
            rcases List.mem_append.mp hvt with h | h
            · exact absurd h hvnl
            · exact h
        have hys_sub : (rest.filter
            (fun v => decide (v ∈ l.leaves))).Sublist rest :=
          List.filter_sublist _
        have hnys : (x :: rest.filter
            (fun v => decide (v ∈ l.leaves))).Nodup := by
          refine List.nodup_cons.mpr ⟨?_, hys_sub.nodup hrest.nodup⟩
          intro hc
          exact absurd (hx x (List.mem_of_mem_filter hc)) (lt_irrefl x)
        have hperml : l.leaves.Perm
            (x :: rest.filter (fun v => decide (v ∈ l.leaves))) := by
          apply List.perm_of_nodup_nodup_toFinset_eq hndl hnys
          ext v
          simp only [List.mem_toFinset]
          exact hmem_l v
        have hpermr : r.leaves.Perm
            (rest.filter (fun v =>
              !(decide (v ∈ rest.filter
                (fun w => decide (w ∈ l.leaves)))))) := by
          apply List.perm_of_nodup_nodup_toFinset_eq hndr
            ((List.filter_sublist _).nodup hrest.nodup)
          ext v
          simp only [List.mem_toFinset]
          exact hmem_r v
        have hsort_xys : List.Sorted (· < ·)
            (x :: rest.filter (fun v => decide (v ∈ l.leaves))) :=
          List.sorted_cons.mpr
            ⟨fun v hv => hx v (List.mem_of_mem_filter hv), hrest.filter _⟩
        have hsort_r : List.Sorted (· < ·)
            (rest.filter (fun v =>
              !(decide (v ∈ rest.filter
                (fun w => decide (w ∈ l.leaves)))))) := hrest.filter _
        have hys_ne : rest.filter (fun v => decide (v ∈ l.leaves)) ≠ rest := by
          intro hc
          have h1 : r.minLeaf ∈ r.leaves := r.minLeaf_mem
          have h2 := (hmem_r _).mp h1
          obtain ⟨h3, h4⟩ := List.mem_filter.mp h2
          rw [hc] at h4
          simp at h4
          exact h4 h3
        have hys_mem : rest.filter (fun v => decide (v ∈ l.leaves))
            ∈ proper_sublists rest :=
          mem_proper_sublists.mpr ⟨hys_sub, hys_ne⟩
        have hl_mem : l ∈ isobar_trees
            (x :: rest.filter (fun v => decide (v ∈ l.leaves))) :=
          ihl _ hsort_xys hcanl hperml
        have hr_mem : r ∈ isobar_trees
            (rest.filter (fun v =>
              !(decide (v ∈ rest.filter
                (fun w => decide (w ∈ l.leaves)))))) :=
          ihr _ hsort_r hcanr hpermr
        rw [isobar_trees_cons hrest_ne]
        apply List.mem_flatMap.mpr
        refine ⟨⟨rest.filter (fun v => decide (v ∈ l.leaves)), hys_mem⟩,
          List.mem_attach _ _, ?_⟩
        apply List.mem_map.mpr
        exact ⟨(l, r), List.mem_product.mpr ⟨hl_mem, hr_mem⟩, rfl⟩

/-- Helper (distinctness of the Topology Builder): over a strictly sorted
ID list no tree is produced twice. -/
theorem isobar_trees_nodup :
    ∀ s : List Nat, List.Sorted (· < ·) s → (isobar_trees s).Nodup := by
  intro s
  induction s using isobar_trees.induct with
  | case1 => intro _; rw [isobar_trees]; exact List.nodup_nil
  | case2 x => intro _; rw [isobar_trees]; simp
  | case3 x rest hne ih1 ih2 =>
    intro hsort
    obtain ⟨hx, hrest⟩ := List.sorted_cons.mp hsort
    rw [isobar_trees_cons (fun hh => hne hh)]
    apply List.nodup_flatMap.mpr
    constructor
    · intro ys _
      have hsub := (mem_proper_sublists.mp ys.2).1
      have hsort1 : List.Sorted (· < ·) (x :: ys.1) :=
        List.sorted_cons.mpr
          ⟨fun v hv => hx v (hsub.subset hv), hrest.sublist hsub⟩
      have hsort2 := hrest.filter (fun v => !(decide (v ∈ ys.1)))
      refine List.Nodup.map_on ?_ ((ih1 ys hsort1).product (ih2 ys hsort2))
      intro p1 _ p2 _ heq
      obtain ⟨h1, h2⟩ := IsobarTree.node.inj heq
      exact Prod.ext h1 h2
    · refine List.Pairwise.imp ?_
        ((List.nodup_attach.mpr
          ((List.nodup_sublists.mpr hrest.nodup).filter _)))
      intro a b hab tt hta htb
      obtain ⟨⟨l1, r1⟩, hpr1, heq1⟩ := List.mem_map.mp hta
      obtain ⟨⟨l2, r2⟩, hpr2, heq2⟩ := List.mem_map.mp htb
      obtain ⟨hl1, _⟩ := List.mem_product.mp hpr1
      obtain ⟨hl2, _⟩ := List.mem_product.mp hpr2
      have heq3 : IsobarTree.node l1 r1 = IsobarTree.node l2 r2 := by
        rw [heq1, heq2]
      obtain ⟨hleq, _⟩ := IsobarTree.node.inj heq3
      subst hleq
      have hsuba := (mem_proper_sublists.mp a.2).1
      have hsubb := (mem_proper_sublists.mp b.2).1
      have hsorta : List.Sorted (· < ·) (x :: a.1) :=
        List.sorted_cons.mpr
          ⟨fun v hv => hx v (hsuba.subset hv), hrest.sublist hsuba⟩
      have hsortb : List.Sorted (· < ·) (x :: b.1) :=
        List.sorted_cons.mpr
          ⟨fun v hv => hx v (hsubb.subset hv), hrest.sublist hsubb⟩
      have hpa := (isobar_trees_sound _ hsorta l1 hl1).2
      have hpb := (isobar_trees_sound _ hsortb l1 hl2).2
      have hperm3 : a.1.Perm b.1 := (hpa.symm.trans hpb).cons_inv
      have heq4 : a.1 = b.1 := List.eq_of_perm_of_sorted hperm3
        (hrest.sublist hsuba) (hrest.sublist hsubb)
      exact hab (Subtype.ext heq4)

/-- Modelled from the spec: rendering the subtrees of an isobar tree into
topology nodes and edges (§3, §4.1): walking the tree with a parent node
ID and a fresh-node counter, a leaf becomes a final-state edge out of the
parent, and a decay node becomes a fresh graph node fed by an
intermediate edge (with ID `offset` plus the node ID) out of the parent;
the result is the node list, the edge list and the next counter value. -/
def build_sub (offset : Nat) : IsobarTree → Nat → Nat →
    (List Nat × List (Nat × Edge) × Nat)
  | .leaf i, parent, next =>
    ([], [(i, { originating := some parent, ending := none })], next)
  | .node l r, parent, next =>
    (next :: ((build_sub offset l next (next + 1)).1
        ++ (build_sub offset r next
          (build_sub offset l next (next + 1)).2.2).1),
      (offset + next,
          { originating := some parent, ending := some next }) ::
        ((build_sub offset l next (next + 1)).2.1
          ++ (build_sub offset r next
            (build_sub offset l next (next + 1)).2.2).2.1),
      (build_sub offset r next
        (build_sub offset l next (next + 1)).2.2).2.2)

/-- Modelled from the spec: rendering an isobar tree as a Topology (§3):
a single leaf becomes the trivial one-node topology; a decay tree gets
node 0 as its root, fed by the external initial-state edge (ID `offset`),
with both subtrees rendered below it. -/
def to_topology (offset : Nat) : IsobarTree → Topology
  | .leaf i =>
    { nodes := [0],
      edges := [(offset, { originating := none, ending := some 0 }),
        (i, { originating := some 0, ending := none })] }
  | .node l r =>
    { nodes := 0 :: ((build_sub offset l 0 1).1
        ++ (build_sub offset r 0 (build_sub offset l 0 1).2.2).1),
      edges := (offset, { originating := none, ending := some 0 }) ::
        ((build_sub offset l 0 1).2.1
          ++ (build_sub offset r 0 (build_sub offset l 0 1).2.2).2.1) }

/-- Helper: filtered length of a cons-append edge list, split into its
parts. -/
theorem length_filter_cons_append {α : Type} (p : α → Bool) (e : α)
    (l1 l2 : List α) :
    (List.filter p (e :: (l1 ++ l2))).length =
      (if p e then 1 else 0) + (List.filter p l1).length
        + (List.filter p l2).length := by
  by_cases hp : p e
  all_goals simp [List.filter_cons, List.filter_append, hp]
  all_goals try omega

/-- Helper (rendering invariants): walking a subtree below `parent` with
fresh counter `next` assigns exactly the node IDs of `[next, c)` (with
`c` the returned counter), hangs exactly one edge below `parent`, gives
every assigned node one incoming and two outgoing edges, touches no other
node, lists exactly the leaves as final-state edges, and creates no
initial-state edge. -/
theorem build_sub_spec (offset : Nat) :
    ∀ (t : IsobarTree) (parent next : Nat), parent < next →
    next ≤ (build_sub offset t parent next).2.2
    ∧ (∀ m ∈ (build_sub offset t parent next).1,
        next ≤ m ∧ m < (build_sub offset t parent next).2.2)
    ∧ (((build_sub offset t parent next).2.1.filter
        (fun ke => ke.2.originating = some parent)).length = 1)
    ∧ (∀ m, m < next ∨ (build_sub offset t parent next).2.2 ≤ m →
        ((build_sub offset t parent next).2.1.filter
          (fun ke => ke.2.ending = some m)).length = 0)
    ∧ (∀ m, (m < next ∨ (build_sub offset t parent next).2.2 ≤ m) →
        m ≠ parent →
        ((build_sub offset t parent next).2.1.filter
          (fun ke => ke.2.originating = some m)).length = 0)
    ∧ (∀ m, next ≤ m → m < (build_sub offset t parent next).2.2 →
        ((build_sub offset t parent next).2.1.filter
          (fun ke => ke.2.ending = some m)).length = 1
        ∧ ((build_sub offset t parent next).2.1.filter
          (fun ke => ke.2.originating = some m)).length = 2)
    ∧ (((build_sub offset t parent next).2.1.filter
        (fun ke => ke.2.ending = none)).map (fun ke => ke.1) = t.leaves)
    ∧ (∀ ke ∈ (build_sub offset t parent next).2.1,
        ke.2.originating ≠ none) := by
  intro t
  induction t with
  | leaf i =>
    intro parent next hpn
    refine ⟨le_refl _, ?_, ?_, ?_, ?_, ?_, ?_, ?_⟩
    · intro m hm
      exact absurd hm (List.not_mem_nil m)
    · simp [build_sub]
    · intro m _
      simp [build_sub]
    · intro m _ hmp
      simp [build_sub, Ne.symm hmp]
    · intro m h1 h2
      simp only [build_sub] at h1 h2
      omega
    · simp [build_sub, IsobarTree.leaves]
    · intro ke hke
      simp only [build_sub, List.mem_singleton] at hke
      subst hke
      simp
  | node l r ihl ihr =>
    intro parent next hpn
    obtain ⟨ha1, hm1, hb1, hce1, hco1, hd1, he1, hf1⟩ :=
      ihl next (next + 1) (Nat.lt_succ_self next)
    obtain ⟨ha2, hm2, hb2, hce2, hco2, hd2, he2, hf2⟩ :=
      ihr next (build_sub offset l next (next + 1)).2.2 (by omega)
    refine ⟨?_, ?_, ?_, ?_, ?_, ?_, ?_, ?_⟩
    · simp only [build_sub]
      omega
    · intro m hm
      simp only [build_sub, List.mem_cons, List.mem_append] at hm
      simp only [build_sub]
      rcases hm with rfl | hm | hm
      · omega
      · have := hm1 m hm; omega
      · have := hm2 m hm; omega
    · have e1 := hco1 parent (Or.inl (by omega)) (by omega)
      have e2 := hco2 parent (Or.inl (by omega)) (by omega)
      simp only [build_sub, length_filter_cons_append]
      simp [e1, e2]
    · intro m hm
      simp only [build_sub] at hm
      have e1 := hce1 m (by omega)
      have e2 := hce2 m (by omega)
      simp only [build_sub, length_filter_cons_append]
      simp [e1, e2]
      omega
    · intro m hm hmp
      simp only [build_sub] at hm
      have hmn : m ≠ next := by omega
      have e1 := hco1 m (by omega) hmn
      have e2 := hco2 m (by omega) hmn
      simp only [build_sub, length_filter_cons_append]
      simp [e1, e2, Ne.symm hmp]
    · intro m hmlo hmhi
      simp only [build_sub] at hmhi
      simp only [build_sub, length_filter_cons_append]
      rcases Nat.lt_or_ge m (next + 1) with hcase1 | hcase1
      · have hmeq : m = next := by omega
        subst hmeq
        have e1 := hce1 m (Or.inl (by omega))
        have e2 := hce2 m (Or.inl (by omega))
        constructor
        · simp [e1, e2]
        · simp [hb1, hb2]
          omega
      · rcases Nat.lt_or_ge m (build_sub offset l next (next + 1)).2.2
            with hcase2 | hcase2
        · constructor
          · simp [(hd1 m (by omega) hcase2).1, hce2 m (Or.inl hcase2)]
            omega
          · simp [(hd1 m (by omega) hcase2).2,
              hco2 m (Or.inl hcase2) (by omega)]
            omega
        · constructor
          · simp [hce1 m (by omega), (hd2 m hcase2 hmhi).1]
            omega
          · simp [hco1 m (by omega) (by omega), (hd2 m hcase2 hmhi).2]
            omega
    · simp only [build_sub, IsobarTree.leaves]
      rw [List.filter_cons_of_neg (by simp), List.filter_append,
        List.map_append, he1, he2]
    · intro ke hke
      simp only [build_sub, List.mem_cons, List.mem_append] at hke
      rcases hke with rfl | hke | hke
      · simp
      · exact hf1 ke hke
      · exact hf2 ke hke

/-- Helper: the rendered topology of a decay tree has the tree's leaves
as its final-state edges, exactly one external initial-state edge, and
every node consumes exactly one edge and produces exactly two (2-body
nodes only). -/
theorem to_topology_node_spec (offset : Nat) (l r : IsobarTree) :
    final_edge_ids (to_topology offset (.node l r))
      = (IsobarTree.node l r).leaves
    ∧ (initial_edge_ids (to_topology offset (.node l r))).length = 1
    ∧ (∀ m ∈ (to_topology offset (.node l r)).nodes,
        (incoming_edge_ids (to_topology offset (.node l r)) m).length = 1
        ∧ (outgoing_edge_ids (to_topology offset (.node l r)) m).length
          = 2) := by
  obtain ⟨ha1, hm1, hb1, hce1, hco1, hd1, he1, hf1⟩ :=
    build_sub_spec offset l 0 1 Nat.zero_lt_one
  obtain ⟨ha2, hm2, hb2, hce2, hco2, hd2, he2, hf2⟩ :=
    build_sub_spec offset r 0 (build_sub offset l 0 1).2.2 (by omega)
  refine ⟨?_, ?_, ?_⟩
  · unfold final_edge_ids to_topology
    rw [List.filter_cons_of_neg (by simp), List.filter_append,
      List.map_append, he1, he2]
    rfl
  · have z1 : List.filter (fun ke => decide (ke.2.originating = none))
        (build_sub offset l 0 1).2.1 = [] :=
      List.filter_eq_nil_iff.mpr (fun ke hke => by simp [hf1 ke hke])
    have z2 : List.filter (fun ke => decide (ke.2.originating = none))
        (build_sub offset r 0 (build_sub offset l 0 1).2.2).2.1 = [] :=
      List.filter_eq_nil_iff.mpr (fun ke hke => by simp [hf2 ke hke])
    unfold initial_edge_ids to_topology
    rw [List.length_map, length_filter_cons_append, z1, z2]
    simp
  · intro m hm
    simp only [to_topology, List.mem_cons, List.mem_append] at hm
    unfold incoming_edge_ids outgoing_edge_ids to_topology
    rw [List.length_map, List.length_map, length_filter_cons_append,
      length_filter_cons_append]
    rcases hm with rfl | hm | hm
    · constructor
      · have e1 := hce1 0 (Or.inl (by omega))
        have e2 := hce2 0 (Or.inl (by omega))
        simp [e1, e2]
      · simp [hb1, hb2]
    · obtain ⟨hlo, hhi⟩ := hm1 m hm
      constructor
      · simp [(hd1 m hlo hhi).1, hce2 m (Or.inl hhi)]
        try omega
      · simp [(hd1 m hlo hhi).2, hco2 m (Or.inl hhi) (by omega)]
        try omega
    · obtain ⟨hlo, hhi⟩ := hm2 m hm
      constructor
      · simp [hce1 m (by omega), (hd2 m hlo hhi).1]
        try omega
      · simp [hco1 m (by omega) (by omega), (hd2 m hlo hhi).2]
        try omega

/-- Helper: a tree covering two or more final-state IDs is a decay
node. -/
theorem tree_is_node_of_two_leaves {t : IsobarTree} {n : Nat}
    (hn : 2 ≤ n) (hp : t.leaves.Perm (List.range n)) :
    ∃ l r, t = .node l r := by
  cases t with
  | leaf i =>
    have h2 := hp.length_eq
    simp [IsobarTree.leaves, List.length_range] at h2
    omega
  | node l r => exact ⟨l, r, rfl⟩

/-- C3: for every N ≥ 2 the Topology Builder returns (without error)
exactly the distinct isobar topologies over final-state edge IDs 0..N-1:
the canonical trees whose leaves are exactly those IDs, with no
duplicates; each rendered topology has exactly N final-state edges, one
external root edge, and only 2-body nodes (in-degree 1, out-degree 2 at
every node).  N = 1 yields the single trivial topology, whose rendering
has one node, and N = 0 is the hard error `InvalidTopologyRequest`. -/
theorem create_isobar_topologies_spec (n : Nat) (hn : 2 ≤ n) :
    (∃ ts, create_isobar_topologies n = .ok ts
      ∧ ts.Nodup
      ∧ (∀ t, t ∈ ts ↔
          t.canonical = true ∧ t.leaves.Perm (List.range n))
      ∧ (∀ t ∈ ts, ∀ offset,
          (final_edge_ids (to_topology offset t)).length = n
          ∧ (initial_edge_ids (to_topology offset t)).length = 1
          ∧ (∀ m ∈ (to_topology offset t).nodes,
              (incoming_edge_ids (to_topology offset t) m).length = 1
              ∧ (outgoing_edge_ids (to_topology offset t) m).length = 2)))
    ∧ create_isobar_topologies 1 = .ok [.leaf 0]
    ∧ (to_topology 1 (.leaf 0)).nodes = [0]
    ∧ create_isobar_topologies 0 = .error "InvalidTopologyRequest" := by
  refine ⟨⟨isobar_trees (List.range n), ?_, ?_, ?_, ?_⟩, ?_, rfl, rfl⟩
  · unfold create_isobar_topologies
    rw [if_neg (by omega)]
  · exact isobar_trees_nodup _ (List.sorted_lt_range n)
  · intro t
    constructor
    · exact isobar_trees_sound _ (List.sorted_lt_range n) t
    · intro h
      exact isobar_trees_complete t _ (List.sorted_lt_range n) h.1 h.2
  · intro t ht offset
    obtain ⟨_, h2⟩ := isobar_trees_sound _ (List.sorted_lt_range n) t ht
    obtain ⟨l, r, rfl⟩ := tree_is_node_of_two_leaves hn h2
    obtain ⟨hfin, hini, hdeg⟩ := to_topology_node_spec offset l r
    refine ⟨?_, hini, hdeg⟩
    rw [hfin, h2.length_eq, List.length_range]
  · unfold create_isobar_topologies
    rw [if_neg (by omega), List.range_succ, List.range_zero,
      List.nil_append, isobar_trees]

/-- Witness for C3: at N = 3 the builder returns a duplicate-free list
characterized as exactly the canonical trees over the IDs 0, 1, 2. -/
theorem create_isobar_topologies_spec_witness :
    ∃ ts, create_isobar_topologies 3 = Except.ok ts ∧ ts.Nodup
      ∧ (∀ t, t ∈ ts ↔
          t.canonical = true ∧ t.leaves.Perm (List.range 3)) := by
  obtain ⟨⟨ts, h1, h2, h3, _⟩, _⟩ :=
    create_isobar_topologies_spec 3 (by omega)
  exact ⟨ts, h1, h2, h3⟩

end ExpertSystem
